import Mathlib

set_option maxRecDepth 8192

/-!
Verification development for the astrixa-lang compiler core
(src/compiler/src of the repository).  The Rust sources are shallowly
embedded: pure functions become Lean functions, the mutable `Vec`s and
`HashMap`s of the passes become explicit lists and association lists with
the same lookup/insert/replace semantics, and machine integers become
`Nat`/`Int` with explicit two's-complement wrapping where overflow matters.
-/

namespace Astrixa

/-! ## Association lists modelling std::collections::HashMap

`alookup` returns the value of the most recent insertion; `ainsert`
replaces the previous binding, as `HashMap::insert` does; `aerase` models
`HashMap::remove`. -/

def alookup {β : Type} : List (String × β) → String → Option β
  | [], _ => none
  | (k2, v) :: rest, k => if k2 = k then some v else alookup rest k

def aerase {β : Type} (m : List (String × β)) (k : String) : List (String × β) :=
  m.filter (fun p => p.1 ≠ k)

def ainsert {β : Type} (m : List (String × β)) (k : String) (v : β) : List (String × β) :=
  (k, v) :: aerase m k

/-! ## 64-bit integer arithmetic

Rust `i64` two's-complement arithmetic with release-mode wrapping on
overflow; division and remainder truncate toward zero (Rust `/` and `%`),
matching `Int.tdiv`/`Int.tmod`. -/

/-- Wrap an integer into the signed 64-bit range. -/
def wrap64 (x : Int) : Int := (x + 2 ^ 63) % 2 ^ 64 - 2 ^ 63

def i64add (a b : Int) : Int := wrap64 (a + b)

def i64sub (a b : Int) : Int := wrap64 (a - b)

def i64mul (a b : Int) : Int := wrap64 (a * b)

/-- Total completion of Rust i64 division used by the executable pipeline
embedding: the truncated quotient wrapped into the i64 range.  Rust's
`a / b` itself panics at the single overflowing input (i64::MIN, -1) in
every build mode; that panic path is modelled by `rust_i64div` below, and
`const_fold_rust_go_agrees` shows the panic-aware folder refines this
total completion wherever it returns a result. -/
def i64div (a b : Int) : Int := wrap64 (Int.tdiv a b)

/-- Total completion of Rust i64 remainder; `a % b` likewise panics at
(i64::MIN, -1), modelled by `rust_i64mod` below. -/
def i64mod (a b : Int) : Int := wrap64 (Int.tmod a b)

/-- Rust i64 division once a non-zero divisor is ensured: `a / b` panics
(in every build mode — division overflow is always checked) at the single
overflowing input (i64::MIN, -1), modelled as `none`; otherwise the
quotient truncates toward zero.  For operands in the i64 range the wrap is
the identity; it only normalizes model payloads a real i64 cannot carry. -/
def rust_i64div (a b : Int) : Option Int :=
  if a = -(2 ^ 63) ∧ b = -1 then none else some (i64div a b)

/-- Rust i64 remainder once a non-zero divisor is ensured: `a % b` panics
at the overflowing input (i64::MIN, -1), modelled as `none`. -/
def rust_i64mod (a b : Int) : Option Int :=
  if a = -(2 ^ 63) ∧ b = -1 then none else some (i64mod a b)

/-! ## IR data model (src/compiler/src/ir.rs)

Float constants (`f64` payloads) are carried as their raw 64-bit pattern,
a `Nat`; the pipeline only copies them through, no claim computes with
them. -/

inductive IRInstr where
  | LoadConstInt (n : Int)
  | LoadConstFloat (bits : Nat)
  | LoadConstBool (b : Bool)
  | LoadConstString (s : String)
  | LoadVar (name : String)
  | StoreVar (name : String)
  | LoadLocal (slot : Nat)
  | StoreLocal (slot : Nat)
  | Add
  | Sub
  | Mul
  | Div
  | Mod
  | Eq
  | Ne
  | Lt
  | Le
  | Gt
  | Ge
  | And
  | Or
  | Not
  | Jump (target : Nat)
  | JumpIfFalse (target : Nat)
  | Call (name : String) (argCount : Nat)
  | CallStd (name : String)
  | CallAI (name : String)
  | CallWeb3 (name : String)
  | CallFS (name : String)
  | Return
  | Panic
  | Pop
  | Dup
  | Nop
  deriving DecidableEq, Repr

structure IRFunction where
  name : String
  param_count : Nat
  instructions : List IRInstr
  local_count : Nat
  deriving DecidableEq, Repr

structure IRModule where
  functions : List IRFunction
  deriving DecidableEq, Repr

/-! ## Constant folding (src/compiler/src/opt/const_fold.rs) -/

/-- The operator column of the `const_fold` window (const_fold.rs lines
7-42): the folded value of the operator on two integer constants, or
`none` for a non-foldable operator.  `Div`/`Mod` with a zero right operand
are not folded; comparisons fold to 1 or 0. -/
def foldOp (op : IRInstr) (a b : Int) : Option Int :=
  match op with
  | .Add => some (i64add a b)
  | .Sub => some (i64sub a b)
  | .Mul => some (i64mul a b)
  | .Div => if b ≠ 0 then some (i64div a b) else none
  | .Mod => if b ≠ 0 then some (i64mod a b) else none
  | .Eq => some (if a = b then 1 else 0)
  | .Ne => some (if a ≠ b then 1 else 0)
  | .Lt => some (if a < b then 1 else 0)
  | .Le => some (if a ≤ b then 1 else 0)
  | .Gt => some (if a > b then 1 else 0)
  | .Ge => some (if a ≥ b then 1 else 0)
  | _ => none

/-- One window of `const_fold`: the replacement for the three-instruction
window, or `none` when the window does not match. -/
def foldTriple : IRInstr → IRInstr → IRInstr → Option IRInstr
  | .LoadConstInt a, .LoadConstInt b, op => (foldOp op a b).map IRInstr.LoadConstInt
  | _, _, _ => none

/-- Fuel-indexed loop of `const_fold`: every iteration of the source's
`while` loop either splices (shrinking the list by two) or advances the
window by one, so the initial list length bounds the iteration count; the
fuel makes the recursion structural and never runs out. -/
def const_fold_go : Nat → List IRInstr → List IRInstr
  | fuel + 1, a :: b :: c :: rest =>
    (match foldTriple a b c with
     | some r => const_fold_go fuel (r :: rest)
     | none => a :: const_fold_go fuel (b :: c :: rest))
  | _, l => l

/-- const_fold.rs `const_fold`: sliding three-instruction window; on a match
the triple is spliced to the folded constant and the window stays at the
same index (so the new constant can combine with what follows), otherwise
the window advances by one. -/
def const_fold (l : List IRInstr) : List IRInstr := const_fold_go l.length l

/-- The operator column of the `const_fold` window with Rust's panic
semantics made explicit: `some (some v)` folds the window to `v`,
`some none` leaves the window alone (non-foldable operator, or `Div`/`Mod`
guarded by b = 0), and `none` is a Rust panic — the source guards only
b = 0, so division or remainder overflow at (i64::MIN, -1) aborts the
compiler. -/
def foldOpRust (op : IRInstr) (a b : Int) : Option (Option Int) :=
  match op with
  | .Add => some (some (i64add a b))
  | .Sub => some (some (i64sub a b))
  | .Mul => some (some (i64mul a b))
  | .Div => if b ≠ 0 then (rust_i64div a b).map some else some none
  | .Mod => if b ≠ 0 then (rust_i64mod a b).map some else some none
  | .Eq => some (some (if a = b then 1 else 0))
  | .Ne => some (some (if a ≠ b then 1 else 0))
  | .Lt => some (some (if a < b then 1 else 0))
  | .Le => some (some (if a ≤ b then 1 else 0))
  | .Gt => some (some (if a > b then 1 else 0))
  | .Ge => some (some (if a ≥ b then 1 else 0))
  | _ => some none

/-- One window of `const_fold` with the panic path. -/
def foldTripleRust : IRInstr → IRInstr → IRInstr → Option (Option IRInstr)
  | .LoadConstInt a, .LoadConstInt b, op =>
    (foldOpRust op a b).map (Option.map IRInstr.LoadConstInt)
  | _, _, _ => some none

/-- The `const_fold` loop with Rust's panic semantics: `none` exactly when
the loop aborts on an unguarded division or remainder overflow. -/
def const_fold_rust_go : Nat → List IRInstr → Option (List IRInstr)
  | fuel + 1, a :: b :: c :: rest =>
    (match foldTripleRust a b c with
     | none => none
     | some (some r) => const_fold_rust_go fuel (r :: rest)
     | some none => (const_fold_rust_go fuel (b :: c :: rest)).map (a :: ·))
  | _, l => some l

/-- `const_fold` with the panic path made explicit: the folded list when
every evaluated window is defined, `none` when the compiler panics. -/
def const_fold_rust (l : List IRInstr) : Option (List IRInstr) :=
  const_fold_rust_go l.length l

/-! ## Dead code elimination (src/compiler/src/opt/dce.rs) -/

def isExit (i : IRInstr) : Bool :=
  match i with
  | .Return => true
  | .Panic => true
  | _ => false

/-- `Iterator::position`: index of the first element satisfying the
predicate. -/
def position (p : IRInstr → Bool) : List IRInstr → Option Nat
  | [] => none
  | i :: rest => if p i then some 0 else (position p rest).map (· + 1)

/-- dce.rs `dead_code_elim`: truncate after the first `Return` or `Panic`. -/
def dead_code_elim (ir : List IRInstr) : List IRInstr :=
  match position isExit ir with
  | some pos => ir.take (pos + 1)
  | none => ir

/-! ## Inlining (src/compiler/src/opt/inline.rs) -/

structure InlineCandidate where
  instrs : List IRInstr
  param_count : Nat
  local_count : Nat
  deriving DecidableEq, Repr

/-- inline.rs `is_inline_candidate`. -/
def is_inline_candidate (f : IRFunction) : Bool :=
  if f.instructions.length > 5 then false
  else if f.param_count > 5 then false
  else if f.instructions.any (fun i =>
      match i with
      | .Jump _ => true
      | .JumpIfFalse _ => true
      | .Call _ _ => true
      | .CallStd _ => true
      | .CallAI _ => true
      | _ => false) then false
  else
    (f.instructions.countP (fun i => i = IRInstr.Return)) = 1 &&
      f.instructions.getLast? = some IRInstr.Return

/-- inline.rs `collect_candidates` (HashMap insertion: a later function with
the same name replaces an earlier one). -/
def collect_candidates (m : IRModule) : List (String × InlineCandidate) :=
  m.functions.foldl
    (fun acc f =>
      if is_inline_candidate f then
        ainsert acc f.name ⟨f.instructions, f.param_count, f.local_count⟩
      else acc)
    []

/-- The rewritten body of an inlined callee: the final `Return` is dropped
and local slots are shifted by `base`. -/
def shiftInstr (base : Nat) (i : IRInstr) : Option IRInstr :=
  match i with
  | .Return => none
  | .LoadLocal slot => some (.LoadLocal (base + slot))
  | .StoreLocal slot => some (.StoreLocal (base + slot))
  | other => some other

/-- The instructions emitted for one caller instruction together with the
updated caller `local_count` (inline.rs lines 67-106): an inlinable call
site becomes argument stores into freshly reserved slots, in reverse
order, followed by the callee body with the final `Return` dropped and
local slots shifted by the base; every other instruction is copied. -/
def inline_step (cands : List (String × InlineCandidate)) (instr : IRInstr)
    (lc : Nat) : List IRInstr × Nat :=
  match instr with
  | .Call name argCount =>
    (match alookup cands name with
     | some callee =>
       if callee.param_count = argCount then
         let base := lc
         let pre := ((List.range argCount).reverse).map
           (fun idx => IRInstr.StoreLocal (base + idx))
         let body := callee.instrs.filterMap (shiftInstr base)
         (pre ++ body, lc + callee.local_count)
       else ([IRInstr.Call name argCount], lc)
     | none => ([IRInstr.Call name argCount], lc))
  | other => ([other], lc)

/-- inline.rs `inline_in_function` body loop, threading the caller's
`local_count` (it grows at each inlined call site and later sites use the
grown value as their base). -/
def inline_go (cands : List (String × InlineCandidate)) :
    List IRInstr → Nat → List IRInstr × Nat
  | [], lc => ([], lc)
  | instr :: rest, lc =>
    let s := inline_step cands instr lc
    let t := inline_go cands rest s.2
    (s.1 ++ t.1, t.2)

def inline_in_function (cands : List (String × InlineCandidate))
    (f : IRFunction) : IRFunction :=
  let r := inline_go cands f.instructions f.local_count
  { f with instructions := r.1, local_count := r.2 }

/-- inline.rs `inline_small_functions`. -/
def inline_small_functions (m : IRModule) : IRModule :=
  ⟨m.functions.map (inline_in_function (collect_candidates m))⟩

/-! ## Pipeline (src/compiler/src/opt/mod.rs) -/

/-- mod.rs `optimize`: constant folding then dead-code elimination on one
function body. -/
def optimize (ir : List IRInstr) : List IRInstr :=
  dead_code_elim (const_fold ir)

/-- mod.rs `optimize_module`: per-function optimize, module-wide inlining,
then per-function optimize again. -/
def optimize_module (m : IRModule) : IRModule :=
  ⟨(inline_small_functions
      ⟨m.functions.map (fun f => { f with instructions := optimize f.instructions })⟩).functions.map
    (fun f => { f with instructions := optimize f.instructions })⟩

/-! ## Types and AST (src/compiler/src/types.rs, src/compiler/src/ast.rs)

The source enum is named `Type`, which Lean reserves; it is embedded as
`Ty`. -/

inductive Ty where
  | Int
  | Float
  | Bool
  | String
  | Void
  | Unknown
  deriving DecidableEq, Repr

inductive Expr where
  | Number (n : Int)
  | Float (bits : Nat)
  | Bool (b : Bool)
  | String (s : String)
  | Identifier (name : String)
  | Call (name : String) (args : List Expr)
  | ModuleCall (moduleName : String) (funcName : String) (args : List Expr)
  | Add (l r : Expr)
  | Sub (l r : Expr)
  | Mul (l r : Expr)
  | Div (l r : Expr)
  | Mod (l r : Expr)
  | Eq (l r : Expr)
  | Ne (l r : Expr)
  | Lt (l r : Expr)
  | Le (l r : Expr)
  | Gt (l r : Expr)
  | Ge (l r : Expr)
  deriving Repr

inductive Stmt where
  | Import (name : String)
  | Function (name : String) (params : List String) (returnType : Ty)
      (body : List Stmt) (exported : Bool)
  | Expression (e : Expr)
  | Let (name : String) (value : Expr)
  | Assign (name : String) (value : Expr)
  | If (condition : Expr) (thenBody : List Stmt) (elseBody : Option (List Stmt))
  | While (condition : Expr) (body : List Stmt)
  | Return (e : Expr)
  | Panic (e : Expr)
  deriving Repr

/-! ## Call registries (src/compiler/src/stdlib.rs) -/

/-- The names of stdlib.rs `STDLIB_FUNCTIONS`, in declaration order. -/
def STDLIB_NAMES : List String :=
  ["print", "println", "input", "len", "exit",
   "abs", "pow", "sqrt", "min", "max", "rand",
   "time", "sleep",
   "hash", "keccak", "sha256",
   "ai.generate", "ai.embed", "ai.classify"]

def is_stdlib (name : String) : Bool := STDLIB_NAMES.contains name

def is_ai (name : String) : Bool :=
  name = "ai.generate" || name = "ai.embed" || name = "ai.classify"

def is_web3 (name : String) : Bool :=
  name = "web3.wallet" || name = "web3.sign" || name = "web3.verify" ||
    name = "web3.keccak" || name = "web3.balance" || name = "web3.send"

/-- Modelled from the spec: lowering.rs calls `crate::stdlib::is_fs_function`,
but no such function exists anywhere under src/.  The spec (section 9, open
question 3) says the FS registry "is not enumerated in the stdlib module
shown" and an implementation "must define its FS name set or omit `CallFS`
until needed"; it is modelled as the empty registry. -/
def is_fs_function (_ : String) : Bool := false

/-! ## Lowering (src/compiler/src/lowering.rs)

`LowerCtx` carries the identifier-to-slot HashMap and `next_slot`;
`IRFunction.add_instruction` pushes on the instruction vector, embedded as
appending to the threaded instruction list; patching a placeholder jump is
an in-place `List.set` at the recorded index. -/

structure LowerCtx where
  locals : List (String × Nat)
  next_slot : Nat
  deriving Repr

def LowerCtx.alloc (ctx : LowerCtx) (name : String) : Nat × LowerCtx :=
  (ctx.next_slot, ⟨ainsert ctx.locals name ctx.next_slot, ctx.next_slot + 1⟩)

def LowerCtx.get (ctx : LowerCtx) (name : String) : Option Nat :=
  alookup ctx.locals name

/-- lowering.rs lines 146-150: overwrite the target of the `JumpIfFalse`
placeholder recorded at `idx`. -/
def patchJumpIfFalse (instrs : List IRInstr) (idx target : Nat) : List IRInstr :=
  match instrs.get? idx with
  | some (.JumpIfFalse _) => instrs.set idx (.JumpIfFalse target)
  | _ => instrs

/-- lowering.rs lines 157-160: overwrite the target of the `Jump`
placeholder recorded at `idx`. -/
def patchJump (instrs : List IRInstr) (idx target : Nat) : List IRInstr :=
  match instrs.get? idx with
  | some (.Jump _) => instrs.set idx (.Jump target)
  | _ => instrs

mutual

/-- lowering.rs `lower_expression`: the instruction sequence appended for
one expression. -/
def lower_expression (ctx : LowerCtx) : Expr → List IRInstr
  | .Number n => [.LoadConstInt n]
  | .Float bits => [.LoadConstFloat bits]
  | .Bool b => [.LoadConstBool b]
  | .String s => [.LoadConstString s]
  | .Identifier name =>
    match ctx.get name with
    | some slot => [.LoadLocal slot]
    | none => [.LoadVar name]
  | .Call name args =>
    lower_args ctx args ++
      [if is_web3 name then IRInstr.CallWeb3 name
       else if is_ai name then IRInstr.CallAI name
       else if is_stdlib name then IRInstr.CallStd name
       else IRInstr.Call name args.length]
  | .ModuleCall moduleName funcName args =>
    let qualified := moduleName ++ "." ++ funcName
    lower_args ctx args ++
      [if is_ai qualified then IRInstr.CallAI qualified
       else if is_web3 qualified then IRInstr.CallWeb3 qualified
       else if is_fs_function qualified then IRInstr.CallFS qualified
       else IRInstr.Call qualified args.length]
  | .Add l r => lower_expression ctx l ++ lower_expression ctx r ++ [.Add]
  | .Sub l r => lower_expression ctx l ++ lower_expression ctx r ++ [.Sub]
  | .Mul l r => lower_expression ctx l ++ lower_expression ctx r ++ [.Mul]
  | .Div l r => lower_expression ctx l ++ lower_expression ctx r ++ [.Div]
  | .Mod l r => lower_expression ctx l ++ lower_expression ctx r ++ [.Mod]
  | .Eq l r => lower_expression ctx l ++ lower_expression ctx r ++ [.Eq]
  | .Ne l r => lower_expression ctx l ++ lower_expression ctx r ++ [.Ne]
  | .Lt l r => lower_expression ctx l ++ lower_expression ctx r ++ [.Lt]
  | .Le l r => lower_expression ctx l ++ lower_expression ctx r ++ [.Le]
  | .Gt l r => lower_expression ctx l ++ lower_expression ctx r ++ [.Gt]
  | .Ge l r => lower_expression ctx l ++ lower_expression ctx r ++ [.Ge]

/-- Arguments are lowered left to right before the call instruction. -/
def lower_args (ctx : LowerCtx) : List Expr → List IRInstr
  | [] => []
  | a :: rest => lower_expression ctx a ++ lower_args ctx rest

end

mutual

/-- lowering.rs `lower_statement`, threading the function's instruction
vector and the lowering context. -/
def lower_statement (instrs : List IRInstr) (ctx : LowerCtx) :
    Stmt → List IRInstr × LowerCtx
  | .Import _ => (instrs, ctx)
  | .Expression e => (instrs ++ lower_expression ctx e, ctx)
  | .Let name value =>
    let (slot, ctx1) := ctx.alloc name
    (instrs ++ lower_expression ctx1 value ++ [.StoreLocal slot], ctx1)
  | .Function _ _ _ _ _ => (instrs, ctx)
  | .If condition thenBody elseBody =>
    let instrs1 := instrs ++ lower_expression ctx condition
    let jumpIfFalseIndex := instrs1.length
    let instrs2 := instrs1 ++ [IRInstr.JumpIfFalse 0]
    let (instrs3, ctx3) := lower_body instrs2 ctx thenBody
    match elseBody with
    | some eb =>
      let jumpIndex := instrs3.length
      let instrs4 := instrs3 ++ [IRInstr.Jump 0]
      let elseStart := instrs4.length
      let instrs5 := patchJumpIfFalse instrs4 jumpIfFalseIndex elseStart
      let (instrs6, ctx6) := lower_body instrs5 ctx3 eb
      let endIndex := instrs6.length
      (patchJump instrs6 jumpIndex endIndex, ctx6)
    | none =>
      let endIndex := instrs3.length
      (patchJumpIfFalse instrs3 jumpIfFalseIndex endIndex, ctx3)
  | .Assign name value =>
    match ctx.get name with
    | some slot => (instrs ++ lower_expression ctx value ++ [.StoreLocal slot], ctx)
    | none => (instrs, ctx)
  | .While condition body =>
    let loopStart := instrs.length
    let instrs1 := instrs ++ lower_expression ctx condition
    let jumpIfFalseIndex := instrs1.length
    let instrs2 := instrs1 ++ [IRInstr.JumpIfFalse 0]
    let (instrs3, ctx3) := lower_body instrs2 ctx body
    let instrs4 := instrs3 ++ [IRInstr.Jump loopStart]
    let loopEnd := instrs4.length
    (patchJumpIfFalse instrs4 jumpIfFalseIndex loopEnd, ctx3)
  | .Return e => (instrs ++ lower_expression ctx e ++ [.Return], ctx)
  | .Panic e => (instrs ++ lower_expression ctx e ++ [.Panic], ctx)

def lower_body (instrs : List IRInstr) (ctx : LowerCtx) :
    List Stmt → List IRInstr × LowerCtx
  | [] => (instrs, ctx)
  | s :: rest =>
    let (instrs1, ctx1) := lower_statement instrs ctx s
    lower_body instrs1 ctx1 rest

end

/-- lowering.rs `lower_function`: parameters get the first slots; after the
body, `LoadConstInt(0); Return` is appended when the body does not already
end in `Return`. -/
def lower_function (name : String) (params : List String) (body : List Stmt) :
    IRFunction :=
  let ctx0 : LowerCtx := params.foldl (fun c p => (c.alloc p).2) ⟨[], 0⟩
  let r := lower_body [] ctx0 body
  let instrs2 :=
    if r.1.getLast? = some IRInstr.Return then r.1
    else r.1 ++ [IRInstr.LoadConstInt 0, IRInstr.Return]
  ⟨name, params.length, instrs2, r.2.next_slot⟩

/-- lowering.rs `lower`: only `Function` statements produce IR functions;
imports and stray statements are skipped at module level. -/
def lower (stmts : List Stmt) : IRModule :=
  ⟨stmts.filterMap (fun s =>
    match s with
    | .Function name params _ body _ => some (lower_function name params body)
    | _ => none)⟩

/-! ## Tokens and lexer (src/compiler/src/token.rs, src/compiler/src/lexer.rs)

Rust's Unicode `char::is_numeric`/`char::is_alphanumeric`/`char::is_whitespace`
are modelled by Lean's ASCII `Char.isDigit`/`Char.isAlphanum`/`Char.isWhitespace`;
they agree on every ASCII character, and every input the claims evaluate is
ASCII. -/

inductive Token where
  | Fn
  | Let
  | Return
  | If
  | Else
  | While
  | Panic
  | Import
  | Export
  | Identifier (text : String)
  | Number (n : Int)
  | String (s : String)
  | LParen
  | RParen
  | LBrace
  | RBrace
  | Colon
  | Comma
  | Arrow
  | Dot
  | Plus
  | Minus
  | Star
  | Slash
  | Assign
  | Greater
  | Less
  | GreaterEqual
  | LessEqual
  | EqualEqual
  | NotEqual
  | EOF
  deriving DecidableEq, Repr

structure Lexer where
  input : List Char
  position : Nat
  line : Nat
  column : Nat
  deriving DecidableEq, Repr

def Lexer.new (s : String) : Lexer := ⟨s.data, 0, 1, 1⟩

/-- The character at the cursor, if any. -/
def Lexer.curr? (lx : Lexer) : Option Char := lx.input.get? lx.position

/-- lexer.rs `advance`: move the cursor one character, updating line and
column. -/
def Lexer.advance (lx : Lexer) : Lexer :=
  match lx.curr? with
  | some c =>
    if c = '\n' then
      { lx with line := lx.line + 1, column := 1, position := lx.position + 1 }
    else
      { lx with column := lx.column + 1, position := lx.position + 1 }
  | none => lx

/-! Each scanning loop of the lexer advances the cursor on every iteration,
so the remaining input length bounds the iteration count; the loops are
embedded with that bound as structural fuel, which never runs out. -/

/-- lexer.rs `skip_whitespace`. -/
def Lexer.skip_whitespace_go : Nat → Lexer → Lexer
  | fuel + 1, lx =>
    (match lx.curr? with
     | some c => if c.isWhitespace then Lexer.skip_whitespace_go fuel lx.advance else lx
     | none => lx)
  | 0, lx => lx

def Lexer.skip_whitespace (lx : Lexer) : Lexer :=
  Lexer.skip_whitespace_go (lx.input.length - lx.position) lx

/-- lexer.rs `read_identifier` scan loop: advance while alphanumeric or
underscore. -/
def Lexer.scan_ident_go : Nat → Lexer → Lexer
  | fuel + 1, lx =>
    (match lx.curr? with
     | some c =>
       if c.isAlphanum || c = '_' then Lexer.scan_ident_go fuel lx.advance else lx
     | none => lx)
  | 0, lx => lx

def Lexer.scan_ident (lx : Lexer) : Lexer :=
  Lexer.scan_ident_go (lx.input.length - lx.position) lx

/-- The keyword table of `read_identifier`. -/
def keyword_or_ident (text : String) : Token :=
  if text = "fn" then .Fn
  else if text = "let" then .Let
  else if text = "return" then .Return
  else if text = "if" then .If
  else if text = "else" then .Else
  else if text = "while" then .While
  else if text = "panic" then .Panic
  else if text = "import" then .Import
  else if text = "export" then .Export
  else .Identifier text

/-- lexer.rs `read_identifier`: scan `[A-Za-z0-9_]*` from the cursor, then
match against the keyword set.  On a character outside that set the scan
loop never runs, the collected text is empty and the cursor does not
move. -/
def Lexer.read_identifier (lx : Lexer) : Token × Lexer :=
  let lx2 := lx.scan_ident
  let text := String.mk ((lx.input.drop lx.position).take (lx2.position - lx.position))
  (keyword_or_ident text, lx2)

/-- lexer.rs `read_number` scan loop: advance while numeric. -/
def Lexer.scan_number_go : Nat → Lexer → Lexer
  | fuel + 1, lx =>
    (match lx.curr? with
     | some c => if c.isDigit then Lexer.scan_number_go fuel lx.advance else lx
     | none => lx)
  | 0, lx => lx

def Lexer.scan_number (lx : Lexer) : Lexer :=
  Lexer.scan_number_go (lx.input.length - lx.position) lx

/-- The numeric value of a digit string (what `parse::<i64>` computes when
it succeeds). -/
def digitsToNat (cs : List Char) : Nat :=
  cs.foldl (fun n c => n * 10 + (c.toNat - 48)) 0

/-- lexer.rs `read_number`: scan digits; `parse::<i64>` succeeds iff the
value fits in `i64`, otherwise the digit text becomes an identifier
token. -/
def Lexer.read_number (lx : Lexer) : Token × Lexer :=
  let lx2 := lx.scan_number
  let digits := (lx.input.drop lx.position).take (lx2.position - lx.position)
  let value := digitsToNat digits
  if value ≤ 2 ^ 63 - 1 then (.Number (Int.ofNat value), lx2)
  else (.Identifier (String.mk digits), lx2)

/-- lexer.rs `read_string` body loop: collect characters until a closing
quote, decoding the escapes n, r, t, backslash and quote; an unknown escape
keeps the backslash and the character. -/
def Lexer.scan_string_go : Nat → Lexer → List Char → List Char × Lexer
  | fuel + 1, lx, acc =>
    (match lx.curr? with
     | some c =>
       if c = '"' then (acc, lx)
       else if c = '\\' && lx.position + 1 < lx.input.length then
         let lx1 := lx.advance
         let c2 := lx1.curr?.getD ' '
         let mapped : List Char :=
           if c2 = 'n' then ['\n']
           else if c2 = 'r' then ['\r']
           else if c2 = 't' then ['\t']
           else if c2 = '\\' then ['\\']
           else if c2 = '"' then ['"']
           else ['\\', c2]
         Lexer.scan_string_go fuel lx1.advance (acc ++ mapped)
       else Lexer.scan_string_go fuel lx.advance (acc ++ [c])
     | none => (acc, lx))
  | 0, lx, acc => (acc, lx)

def Lexer.scan_string (lx : Lexer) (acc : List Char) : List Char × Lexer :=
  Lexer.scan_string_go (lx.input.length - lx.position) lx acc

/-- lexer.rs `read_string`: consume the opening quote, scan the body, and
consume the closing quote when present. -/
def Lexer.read_string (lx : Lexer) : Token × Lexer :=
  let (chars, lx1) := lx.advance.scan_string []
  let lx2 := if lx1.curr? = some '"' then lx1.advance else lx1
  (.String (String.mk chars), lx2)

/-- lexer.rs `peek_two_char_op`: `==` when the next character is `=`,
otherwise `=` (assignment). -/
def Lexer.peek_two_char_op (lx : Lexer) : Token × Lexer :=
  if lx.input.get? (lx.position + 1) = some '=' then
    (.EqualEqual, lx.advance.advance)
  else (.Assign, lx.advance)

/-- lexer.rs `peek_not_equal`: `!=` when followed by `=`, otherwise the
solitary `!` becomes an identifier token. -/
def Lexer.peek_not_equal (lx : Lexer) : Token × Lexer :=
  if lx.input.get? (lx.position + 1) = some '=' then
    (.NotEqual, lx.advance.advance)
  else (.Identifier "!", lx.advance)

def Lexer.peek_less (lx : Lexer) : Token × Lexer :=
  if lx.input.get? (lx.position + 1) = some '=' then
    (.LessEqual, lx.advance.advance)
  else (.Less, lx.advance)

def Lexer.peek_greater (lx : Lexer) : Token × Lexer :=
  if lx.input.get? (lx.position + 1) = some '=' then
    (.GreaterEqual, lx.advance.advance)
  else (.Greater, lx.advance)

/-- lexer.rs `next_token` (lines 20-49): skip whitespace, return `EOF` at
the end of input, dispatch on the current character; anything that is not
a recognized punctuation or operator, a quote, or a numeric character
falls through to `read_identifier`. -/
def next_token (lx0 : Lexer) : Token × Lexer :=
  let lx := lx0.skip_whitespace
  match lx.curr? with
  | none => (.EOF, lx)
  | some ch =>
    if ch = '(' then (.LParen, lx.advance)
    else if ch = ')' then (.RParen, lx.advance)
    else if ch = '{' then (.LBrace, lx.advance)
    else if ch = '}' then (.RBrace, lx.advance)
    else if ch = '+' then (.Plus, lx.advance)
    else if ch = '-' then (.Minus, lx.advance)
    else if ch = '*' then (.Star, lx.advance)
    else if ch = '/' then (.Slash, lx.advance)
    else if ch = ':' then (.Colon, lx.advance)
    else if ch = ',' then (.Comma, lx.advance)
    else if ch = '.' then (.Dot, lx.advance)
    else if ch = '=' then lx.peek_two_char_op
    else if ch = '!' then lx.peek_not_equal
    else if ch = '<' then lx.peek_less
    else if ch = '>' then lx.peek_greater
    else if ch = '"' then lx.read_string
    else if ch.isDigit then lx.read_number
    else lx.read_identifier

/-- Iterated lexing: the lexer state after n calls to `next_token`. -/
def lexIter (s : Lexer) : Nat → Lexer
  | 0 => s
  | n + 1 => (next_token (lexIter s n)).2

/-! ## Type checker (src/compiler/src/typechecker.rs)

`TypeChecker` owns two HashMaps (`symbols`, `functions`) and an error
vector; all three are threaded explicitly.  The `format!` message strings
of the source are abstracted into tagged values carrying the same data. -/

structure FunctionSignature where
  params : List Ty
  return_type : Ty
  deriving DecidableEq, Repr

inductive TCError where
  | inconsistentReturns (fname : String)
  | ifCondNotInt (t : Ty)
  | assignUndefined (name : String)
  | assignMismatch (valueType varType : Ty)
  | whileCondNotInt (t : Ty)
  | panicNotString (t : Ty)
  | arityMismatch (fname : String) (expected got : Nat)
  | argTypeMismatch (idx : Nat) (fname : String) (expected got : Ty)
  | arithOperands (l r : Ty)
  | cmpOperands (l r : Ty)
  deriving DecidableEq, Repr

structure TCState where
  symbols : List (String × Ty)
  functions : List (String × FunctionSignature)
  errors : List TCError
  deriving DecidableEq, Repr

def initTC : TCState := ⟨[], [], []⟩

def pushErr (st : TCState) (e : TCError) : TCState :=
  { st with errors := st.errors ++ [e] }

/-- Arithmetic operators demand `Int` on both sides and return `Int`;
otherwise an error is pushed and `Unknown` returned. -/
def arith_result (st : TCState) (lt rt : Ty) : Ty × TCState :=
  if lt = Ty.Int ∧ rt = Ty.Int then (Ty.Int, st)
  else (Ty.Unknown, pushErr st (.arithOperands lt rt))

/-- Comparison operators demand `Int` on both sides and return `Bool`
either way (to avoid cascading errors). -/
def cmp_result (st : TCState) (lt rt : Ty) : Ty × TCState :=
  if lt = Ty.Int ∧ rt = Ty.Int then (Ty.Bool, st)
  else (Ty.Bool, pushErr st (.cmpOperands lt rt))

mutual

/-- typechecker.rs `check_expr`.  The source match has no arm for
`Expr::ModuleCall` (it does not compile against ast.rs as given); that
case is completed with `Unknown`, the error-neutral type, and no claim
exercises it. -/
def check_expr (st : TCState) : Expr → Ty × TCState
  | .Number _ => (Ty.Int, st)
  | .Float _ => (Ty.Float, st)
  | .Bool _ => (Ty.Bool, st)
  | .String _ => (Ty.String, st)
  | .Identifier name => ((alookup st.symbols name).getD Ty.Unknown, st)
  | .Call name args =>
    match alookup st.functions name with
    | some sig =>
      let st1 :=
        if args.length ≠ sig.params.length then
          pushErr st (.arityMismatch name sig.params.length args.length)
        else st
      let st2 := check_call_args st1 sig.params name 0 args
      (sig.return_type, st2)
    | none => (Ty.Int, st)
  | .ModuleCall _ _ _ => (Ty.Unknown, st)
  | .Add l r =>
    let (lt, st1) := check_expr st l
    let (rt, st2) := check_expr st1 r
    arith_result st2 lt rt
  | .Sub l r =>
    let (lt, st1) := check_expr st l
    let (rt, st2) := check_expr st1 r
    arith_result st2 lt rt
  | .Mul l r =>
    let (lt, st1) := check_expr st l
    let (rt, st2) := check_expr st1 r
    arith_result st2 lt rt
  | .Div l r =>
    let (lt, st1) := check_expr st l
    let (rt, st2) := check_expr st1 r
    arith_result st2 lt rt
  | .Mod l r =>
    let (lt, st1) := check_expr st l
    let (rt, st2) := check_expr st1 r
    arith_result st2 lt rt
  | .Eq l r =>
    let (lt, st1) := check_expr st l
    let (rt, st2) := check_expr st1 r
    cmp_result st2 lt rt
  | .Ne l r =>
    let (lt, st1) := check_expr st l
    let (rt, st2) := check_expr st1 r
    cmp_result st2 lt rt
  | .Lt l r =>
    let (lt, st1) := check_expr st l
    let (rt, st2) := check_expr st1 r
    cmp_result st2 lt rt
  | .Le l r =>
    let (lt, st1) := check_expr st l
    let (rt, st2) := check_expr st1 r
    cmp_result st2 lt rt
  | .Gt l r =>
    let (lt, st1) := check_expr st l
    let (rt, st2) := check_expr st1 r
    cmp_result st2 lt rt
  | .Ge l r =>
    let (lt, st1) := check_expr st l
    let (rt, st2) := check_expr st1 r
    cmp_result st2 lt rt

/-- The argument loop of the `Call` arm: each argument is checked and
compared against the parameter type at its index when that index is in
range. -/
def check_call_args (st : TCState) (params : List Ty) (fname : String)
    (i : Nat) : List Expr → TCState
  | [] => st
  | a :: rest =>
    let (argType, st1) := check_expr st a
    let st2 :=
      match params.get? i with
      | some expected =>
        if argType ≠ expected ∧ argType ≠ Ty.Unknown then
          pushErr st1 (.argTypeMismatch i fname expected argType)
        else st1
      | none => st1
    check_call_args st2 params fname (i + 1) rest

end

mutual

/-- typechecker.rs `check_stmt`.  The source match has no arm for
`Stmt::Import`; that case leaves the state unchanged, and no claim
exercises it. -/
def check_stmt (st : TCState) : Stmt → TCState
  | .Function name params returnType body _ =>
    let provisional : FunctionSignature := ⟨params.map (fun _ => Ty.Int), returnType⟩
    let st1 := { st with
      functions := ainsert st.functions name provisional,
      symbols := ainsert st.symbols name returnType }
    let st2 := { st1 with
      symbols := params.foldl (fun m p => ainsert m p Ty.Int) st1.symbols }
    let st3 := check_body st2 body
    let (returns, st4) := collect_return_types st3 body
    let (inferred, st5) :=
      match returns with
      | [] => (Ty.Void, st4)
      | first :: _ =>
        if returns.all (fun t => decide (t = first) || decide (t = Ty.Unknown)) then
          (first, st4)
        else (Ty.Unknown, pushErr st4 (.inconsistentReturns name))
    let st6 := { st5 with
      functions :=
        match alookup st5.functions name with
        | some sig => ainsert st5.functions name { sig with return_type := inferred }
        | none => st5.functions,
      symbols := ainsert st5.symbols name inferred }
    { st6 with symbols := params.foldl (fun m p => aerase m p) st6.symbols }
  | .Expression _ => st
  | .Let name value =>
    let (valueType, st1) := check_expr st value
    { st1 with symbols := ainsert st1.symbols name valueType }
  | .If condition thenBody elseBody =>
    let (condType, st1) := check_expr st condition
    let st2 :=
      if condType ≠ Ty.Int ∧ condType ≠ Ty.Bool ∧ condType ≠ Ty.Unknown then
        pushErr st1 (.ifCondNotInt condType)
      else st1
    let st3 := check_body st2 thenBody
    match elseBody with
    | some body => check_body st3 body
    | none => st3
  | .Assign name value =>
    let st1 :=
      if alookup st.symbols name = none then pushErr st (.assignUndefined name)
      else st
    let (valueType, st2) := check_expr st1 value
    let varType := (alookup st2.symbols name).getD Ty.Unknown
    if varType ≠ Ty.Unknown ∧ valueType ≠ Ty.Unknown ∧ varType ≠ valueType then
      pushErr st2 (.assignMismatch valueType varType)
    else st2
  | .While condition body =>
    let (condType, st1) := check_expr st condition
    let st2 :=
      if condType ≠ Ty.Int ∧ condType ≠ Ty.Bool ∧ condType ≠ Ty.Unknown then
        pushErr st1 (.whileCondNotInt condType)
      else st1
    check_body st2 body
  | .Return e =>
    (check_expr st e).2
  | .Panic e =>
    let (t, st1) := check_expr st e
    if t ≠ Ty.String ∧ t ≠ Ty.Unknown then pushErr st1 (.panicNotString t)
    else st1
  | .Import _ => st

def check_body (st : TCState) : List Stmt → TCState
  | [] => st
  | s :: rest => check_body (check_stmt st s) rest

/-- The per-statement step of typechecker.rs
`collect_return_types_in_body`: `Return` contributes the type of its
expression, `if`/`while` bodies are recursed into, a nested function's
returns are ignored; each return expression is re-checked against the
current state. -/
def collect_return_types_stmt (st : TCState) : Stmt → List Ty × TCState
  | .Return e =>
    let r := check_expr st e
    ([r.1], r.2)
  | .If _ thenBody elseBody =>
    let a := collect_return_types st thenBody
    (match elseBody with
     | some body =>
       let b := collect_return_types a.2 body
       (a.1 ++ b.1, b.2)
     | none => a)
  | .While _ body => collect_return_types st body
  | _ => ([], st)

/-- typechecker.rs `collect_return_types_in_body`: the statement loop. -/
def collect_return_types (st : TCState) : List Stmt → List Ty × TCState
  | [] => ([], st)
  | s :: rest =>
    let r1 := collect_return_types_stmt st s
    let r2 := collect_return_types r1.2 rest
    (r1.1 ++ r2.1, r2.2)

end

/-- typechecker.rs `check`: fold `check_stmt` over the statement list; the
result is `Ok` exactly when the error vector stays empty. -/
def check_program (stmts : List Stmt) : TCState :=
  stmts.foldl check_stmt initTC

/-! ## WAT emitter fragments (src/compiler/src/codegen/wasm.rs)

`MemoryAllocator.strings` is a HashMap from a string to its `(ptr, len)`
pair; the map is embedded as an association list (lookup order never
matters: each string keeps the pair assigned at its first allocation).
`ptr` advances by the byte length of each newly interned string, Rust
`str::len`. -/

structure MemoryAllocator where
  offset : Nat
  strings : List (String × Nat × Nat)
  deriving DecidableEq, Repr

def MemoryAllocator.empty : MemoryAllocator := ⟨0, []⟩

/-- wasm.rs `allocate_string`: return the cached pair, or place the string
at the running offset. -/
def allocate_string (al : MemoryAllocator) (s : String) :
    (Nat × Nat) × MemoryAllocator :=
  match alookup al.strings s with
  | some entry => (entry, al)
  | none =>
    let ptr := al.offset
    let len := s.utf8ByteSize
    ((ptr, len), ⟨al.offset + len, ainsert al.strings s (ptr, len)⟩)

/-- The string-collection loop of `generate_wasm_module`: allocate every
`LoadConstString` payload in instruction order. -/
def collect_strings (al : MemoryAllocator) (instrs : List IRInstr) :
    MemoryAllocator :=
  instrs.foldl
    (fun a i =>
      match i with
      | .LoadConstString s => (allocate_string a s).2
      | _ => a)
    al

/-- wasm.rs lines 69-76: the module-level allocator that the data section
is generated from. -/
def module_allocator (m : IRModule) : MemoryAllocator :=
  m.functions.foldl (fun a f => collect_strings a f.instructions) .empty

/-- wasm.rs lines 104-112: the fresh per-function allocator that
`generate_body` is handed. -/
def func_allocator (f : IRFunction) : MemoryAllocator :=
  collect_strings .empty f.instructions

/-- wasm.rs lines 334-344 (`generate_body`, `LoadConstString` arm): the
`(ptr, len)` pair emitted as `i32.const ptr` / `i32.const len`, with the
`(0, 0)` fallback for a string missing from the allocator. -/
def emitted_string_const (al : MemoryAllocator) (s : String) : Nat × Nat :=
  (alookup al.strings s).getD (0, 0)

/-- wasm.rs `collect_stdlib_imports` (lines 131-158): `CallStd`, `CallAI`,
`CallWeb3` contribute their name and `Panic` contributes "panic"; there is
no arm for `CallFS`.  The HashSet is embedded as an insertion-ordered
duplicate-free list; the claims about it count occurrences, which do not
depend on iteration order. -/
def import_name_of (i : IRInstr) : Option String :=
  match i with
  | .CallStd name => some name
  | .CallAI name => some name
  | .CallWeb3 name => some name
  | .Panic => some "panic"
  | _ => none

def insert_import (acc : List String) (name : String) : List String :=
  if name ∈ acc then acc else acc ++ [name]

def collect_instr_imports (acc : List String) : List IRInstr → List String
  | [] => acc
  | i :: rest =>
    let acc2 :=
      match import_name_of i with
      | some name => insert_import acc name
      | none => acc
    collect_instr_imports acc2 rest

def collect_stdlib_imports (m : IRModule) : List String :=
  m.functions.foldl (fun acc f => collect_instr_imports acc f.instructions) []

/-! ## Module flattening driver (src/compiler/src/bin/compile_modules.rs)

`compile_with_modules` lines 80-115, with file loading abstracted: the
loader's parsed modules are given as an association list from module name
to statement list (loader.rs parses each `<name>.ax` once and caches it).
A missing module makes `load_module` fail and the driver abort, embedded
as `none`. -/

def collect_import_names : List Stmt → List String
  | [] => []
  | .Import name :: rest => name :: collect_import_names rest
  | _ :: rest => collect_import_names rest

def isImportStmt : Stmt → Bool
  | .Import _ => true
  | _ => false

/-- The flattened compilation unit: `all_modules` starts as
`vec![main_ast]`, the imported modules' statements are pushed after it,
and the concatenation drops `Import` statements. -/
def flatten_unit (mainAst : List Stmt) (loaded : List (String × List Stmt)) :
    Option (List Stmt) :=
  match (collect_import_names mainAst).mapM (fun n => alookup loaded n) with
  | some importedModules =>
    let all_modules := mainAst :: importedModules
    some ((all_modules.map (fun stmts =>
      stmts.filter (fun s => !(isImportStmt s)))).flatten)
  | none => none

/-! ## Straightline stack semantics for folding soundness

The three-instruction windows `const_fold` rewrites contain only integer
constant loads, arithmetic, and comparisons; this evaluator gives exactly
that fragment its runtime meaning on a 64-bit wrapping ALU (spec P6) and
stops (returns `none`) on any other instruction or on division by
zero. -/

def eval_step (i : IRInstr) (stack : List Int) : Option (List Int) :=
  match i, stack with
  | .LoadConstInt n, s => some (n :: s)
  | .Add, b :: a :: s => some (i64add a b :: s)
  | .Sub, b :: a :: s => some (i64sub a b :: s)
  | .Mul, b :: a :: s => some (i64mul a b :: s)
  | .Div, b :: a :: s => if b = 0 then none else some (i64div a b :: s)
  | .Mod, b :: a :: s => if b = 0 then none else some (i64mod a b :: s)
  | .Eq, b :: a :: s => some ((if a = b then (1 : Int) else 0) :: s)
  | .Ne, b :: a :: s => some ((if a ≠ b then (1 : Int) else 0) :: s)
  | .Lt, b :: a :: s => some ((if a < b then (1 : Int) else 0) :: s)
  | .Le, b :: a :: s => some ((if a ≤ b then (1 : Int) else 0) :: s)
  | .Gt, b :: a :: s => some ((if a > b then (1 : Int) else 0) :: s)
  | .Ge, b :: a :: s => some ((if a ≥ b then (1 : Int) else 0) :: s)
  | _, _ => none

def eval_straight : List IRInstr → List Int → Option (List Int)
  | [], s => some s
  | i :: rest, s =>
    match eval_step i s with
    | some s2 => eval_straight rest s2
    | none => none

/-! ## Control-flow reachability (spec P7)

The spec-side notion the dead-code claim is stated against: instruction
index `j` is reachable from the entry when a chain of control-flow
successors leads to it.  `Jump t` continues at `t`; `JumpIfFalse t`
continues at `t` or falls through; `Return`/`Panic` stop; everything else
falls through. -/

def succs (i : IRInstr) (idx : Nat) : List Nat :=
  match i with
  | .Jump t => [t]
  | .JumpIfFalse t => [idx + 1, t]
  | .Return => []
  | .Panic => []
  | _ => [idx + 1]

inductive Reachable (l : List IRInstr) : Nat → Prop where
  | entry : Reachable l 0
  | step {i j : Nat} (hr : Reachable l i) (hi : i < l.length)
      (hj : j ∈ succs (l.get ⟨i, hi⟩) i) : Reachable l j

/-! ## Concrete input programs used by the claims -/

/-- Spec section 8 scenario 2:
fn sign(n) if n is greater than 0 return 1 else return 0. -/
def sign_prog : List Stmt :=
  [Stmt.Function "sign" ["n"] Ty.Void
    [Stmt.If (Expr.Gt (Expr.Identifier "n") (Expr.Number 0))
      [Stmt.Return (Expr.Number 1)]
      (some [Stmt.Return (Expr.Number 0)])]
    false]

/-- The instruction list `lower` produces for `sign` (proved below). -/
def sign_instrs : List IRInstr :=
  [.LoadLocal 0, .LoadConstInt 0, .Gt, .JumpIfFalse 7,
   .LoadConstInt 1, .Return, .Jump 9, .LoadConstInt 0, .Return]

/-- Spec section 8 scenario 5: fn bad with body panic("nope"). -/
def panic_prog : List Stmt :=
  [Stmt.Function "bad" [] Ty.Void [Stmt.Panic (Expr.String "nope")] false]

/-- Spec section 8 scenario 6: fn add(a,b) return a+b and
fn main return add(2,3). -/
def add_main_prog : List Stmt :=
  [Stmt.Function "add" ["a", "b"] Ty.Void
    [Stmt.Return (Expr.Add (Expr.Identifier "a") (Expr.Identifier "b"))] false,
   Stmt.Function "main" [] Ty.Void
    [Stmt.Return (Expr.Call "add" [Expr.Number 2, Expr.Number 3])] false]

/-- Two functions each referencing a distinct string literal. -/
def two_string_prog : List Stmt :=
  [Stmt.Function "f" [] Ty.Void [Stmt.Panic (Expr.String "a")] false,
   Stmt.Function "g" [] Ty.Void [Stmt.Panic (Expr.String "b")] false]

/-- A `let` binding in one function and a use of the same name in the body
of a later function. -/
def leak_prog : List Stmt :=
  [Stmt.Function "f" ["p"] Ty.Void [Stmt.Let "x" (Expr.String "s")] false,
   Stmt.Function "g" [] Ty.Void [Stmt.Return (Expr.Identifier "x")] false]

/-- Spec section 8 scenario 4, root module: import math, then main calling
math.add(2,3). -/
def main_module_stmts : List Stmt :=
  [Stmt.Import "math",
   Stmt.Function "main" [] Ty.Void
    [Stmt.Return (Expr.ModuleCall "math" "add" [Expr.Number 2, Expr.Number 3])]
    false]

/-- Spec section 8 scenario 4, imported math module. -/
def math_module_stmts : List Stmt :=
  [Stmt.Function "add" ["a", "b"] Ty.Void
    [Stmt.Return (Expr.Add (Expr.Identifier "a") (Expr.Identifier "b"))] true]

/-- The defining name of a statement, for observing statement order. -/
def stmt_name : Stmt → String
  | .Function n _ _ _ _ => n
  | .Import n => n
  | _ => ""

/-- An IR module whose only external reference is a `CallFS`
instruction. -/
def fs_module : IRModule :=
  ⟨[⟨"main", 0, [.CallFS "fs.read_file", .Return], 0⟩]⟩

/-- An IR module with a stdlib call and a panic. -/
def std_module : IRModule :=
  ⟨[⟨"main", 0, [.LoadConstString "hi", .CallStd "print", .Panic], 0⟩]⟩

/-! # Theorems

Shared helper lemmas first, then one theorem per claim, with its witness
or counterexample where one is required. -/

theorem getLast?_cons_some {α : Type} (a x : α) (l : List α)
    (h : l.getLast? = some x) : (a :: l).getLast? = some x := by
  have e : a :: l = [a] ++ l := rfl
  rw [e, List.getLast?_append, h]
  rfl

theorem isExit_iff (i : IRInstr) :
    isExit i = true ↔ i = IRInstr.Return ∨ i = IRInstr.Panic := by
  cases i <;> simp [isExit]

/-- Claim C1 (code_bug evaluation): lowering the spec's `sign` function
produces `sign_instrs`, a well-typed program; `dead_code_elim` truncates it
to its first six instructions, deleting the else branch at indices 6 to 8,
yet index 7 is reachable from the entry through the `JumpIfFalse 7` at
index 3 — dead-code truncation removes instructions that are reachable by
control flow, contradicting the claim. -/
theorem dce_removes_reachable_else_branch :
    (lower sign_prog).functions.map (fun f => f.instructions) = [sign_instrs] ∧
    (check_program sign_prog).errors = [] ∧
    dead_code_elim sign_instrs = sign_instrs.take 6 ∧
    sign_instrs.length = 9 ∧
    Reachable sign_instrs 7 := by
  refine ⟨by decide, by decide, by decide, by decide, ?_⟩
  have h0 : Reachable sign_instrs 0 := .entry
  have h1 : Reachable sign_instrs 1 := h0.step (by decide) (by decide)
  have h2 : Reachable sign_instrs 2 := h1.step (by decide) (by decide)
  have h3 : Reachable sign_instrs 3 := h2.step (by decide) (by decide)
  exact h3.step (by decide) (by decide)

/-- Claim C2 (code_bug evaluation): on the input "%" the lexer does not
advance: `next_token` falls through to `read_identifier`, whose scan loop
rejects the character immediately, so the token is `Identifier ""` and the
state is unchanged; iterating `next_token` any number of times never
reaches `EOF`, refuting both termination within the input length and the
claimed diagnostic-with-advance behavior. -/
theorem lexer_stuck_on_unknown_char :
    (next_token (Lexer.new "%")).1 = Token.Identifier "" ∧
    (next_token (Lexer.new "%")).2 = Lexer.new "%" ∧
    (∀ n : Nat, lexIter (Lexer.new "%") n = Lexer.new "%") ∧
    (∀ n : Nat, (next_token (lexIter (Lexer.new "%") n)).1 ≠ Token.EOF) := by
  have hfix : (next_token (Lexer.new "%")).2 = Lexer.new "%" := by decide
  have hiter : ∀ n : Nat, lexIter (Lexer.new "%") n = Lexer.new "%" := by
    intro n
    induction n with
    | zero => rfl
    | succ n ih => rw [lexIter, ih, hfix]
  refine ⟨by decide, hfix, hiter, ?_⟩
  intro n
  rw [hiter n]
  decide

/-- Claim C3 (code_bug evaluation): the spec's `sign` program type-checks,
but after the full `optimize_module` pipeline its function still contains
`JumpIfFalse 7` while only 6 instructions remain (dead-code elimination
truncated after the then-branch `Return` without adjusting targets), so a
jump target exceeds the instruction-list length. -/
theorem optimized_jump_target_out_of_range :
    (check_program sign_prog).errors = [] ∧
    (optimize_module (lower sign_prog)).functions =
      [⟨"sign", 1,
        [.LoadLocal 0, .LoadConstInt 0, .Gt, .JumpIfFalse 7, .LoadConstInt 1, .Return],
        1⟩] ∧
    ∃ f ∈ (optimize_module (lower sign_prog)).functions, ∃ t : Nat,
      IRInstr.JumpIfFalse t ∈ f.instructions ∧ ¬ (t ≤ f.instructions.length) := by
  refine ⟨by decide, by decide, ?_⟩
  refine ⟨⟨"sign", 1,
    [.LoadLocal 0, .LoadConstInt 0, .Gt, .JumpIfFalse 7, .LoadConstInt 1, .Return],
    1⟩, by decide, 7, by decide, by decide⟩

/-! ### Structure of a successful fold window -/

theorem foldTriple_some (a b c r : IRInstr) (h : foldTriple a b c = some r) :
    ∃ x y z : Int, a = IRInstr.LoadConstInt x ∧ b = IRInstr.LoadConstInt y ∧
      r = IRInstr.LoadConstInt z ∧ foldOp c x y = some z := by
  unfold foldTriple at h
  split at h
  case _ x y =>
    cases ho : foldOp c x y with
    | none => rw [ho] at h; simp at h
    | some z =>
      rw [ho] at h
      simp only [Option.map_some'] at h
      exact ⟨x, y, z, rfl, rfl, (Option.some.inj h).symm, ho⟩
  case _ => simp at h

theorem foldOp_not_exit (c : IRInstr) (x y : Int) (hx : isExit c = true) :
    foldOp c x y = none := by
  rcases (isExit_iff c).mp hx with rfl | rfl <;> rfl

/-! ### Each optimizer pass keeps a terminator in final position -/

theorem const_fold_go_last (fuel : Nat) :
    ∀ (l : List IRInstr) (x : IRInstr), l.getLast? = some x → isExit x = true →
      (const_fold_go fuel l).getLast? = some x := by
  induction fuel with
  | zero => intro l x h _; exact h
  | succ fuel ih =>
    intro l x h hx
    match l with
    | [] => simp at h
    | [a] => exact h
    | [a, b] => exact h
    | a :: b :: c :: rest =>
      rw [const_fold_go]
      cases hf : foldTriple a b c with
      | none =>
        simp only [hf]
        have h2 : (b :: c :: rest).getLast? = some x := by
          rw [List.getLast?_cons_cons] at h; exact h
        exact getLast?_cons_some _ _ _ (ih _ _ h2 hx)
      | some r =>
        simp only [hf]
        cases rest with
        | nil =>
          have hc : c = x := by simpa using h
          subst hc
          obtain ⟨x1, y1, z1, _, _, _, hop⟩ := foldTriple_some a b c r hf
          rw [foldOp_not_exit c x1 y1 hx] at hop
          exact Option.noConfusion hop
        | cons d ds =>
          have h2 : (r :: d :: ds).getLast? = some x := by
            rw [List.getLast?_cons_cons]
            rw [List.getLast?_cons_cons, List.getLast?_cons_cons] at h
            exact h
          exact ih _ _ h2 hx

theorem dce_cons (i : IRInstr) (rest : List IRInstr) :
    dead_code_elim (i :: rest) =
      if isExit i then [i] else i :: dead_code_elim rest := by
  unfold dead_code_elim
  rw [position]
  by_cases hi : isExit i
  · simp [hi]
  · simp only [hi, Bool.false_eq_true, if_false]
    cases hp : position isExit rest with
    | none => simp
    | some p => simp [List.take_succ_cons]

theorem dce_exit_last : ∀ (l : List IRInstr) (x : IRInstr),
    l.getLast? = some x → isExit x = true →
    ∃ y, (dead_code_elim l).getLast? = some y ∧ isExit y = true := by
  intro l
  induction l with
  | nil => intro x h _; simp at h
  | cons i rest ih =>
    intro x h hx
    rw [dce_cons]
    by_cases hi : isExit i
    · exact ⟨i, by simp [hi], hi⟩
    · rw [if_neg (by simpa using hi)]
      cases rest with
      | nil =>
        have : i = x := by simpa using h
        subst this
        exact absurd hx (by simpa using hi)
      | cons d ds =>
        have h2 : (d :: ds).getLast? = some x := by
          rw [List.getLast?_cons_cons] at h; exact h
        obtain ⟨y, hy, hye⟩ := ih x h2 hx
        exact ⟨y, getLast?_cons_some _ _ _ hy, hye⟩

theorem inline_step_exit (cands : List (String × InlineCandidate)) (x : IRInstr)
    (lc : Nat) (hx : isExit x = true) : inline_step cands x lc = ([x], lc) := by
  rcases (isExit_iff x).mp hx with rfl | rfl <;> rfl

theorem inline_go_last (cands : List (String × InlineCandidate)) :
    ∀ (l : List IRInstr) (lc : Nat) (x : IRInstr),
      l.getLast? = some x → isExit x = true →
      (inline_go cands l lc).1.getLast? = some x := by
  intro l
  induction l with
  | nil => intro lc x h _; simp at h
  | cons i rest ih =>
    intro lc x h hx
    cases rest with
    | nil =>
      have hi : i = x := by simpa using h
      subst hi
      show ((inline_step cands i lc).1 ++
        (inline_go cands [] (inline_step cands i lc).2).1).getLast? = some i
      rw [inline_step_exit cands i lc hx]
      rfl
    | cons d ds =>
      have h2 : (d :: ds).getLast? = some x := by
        rw [List.getLast?_cons_cons] at h; exact h
      have ht := ih (inline_step cands i lc).2 x h2 hx
      show ((inline_step cands i lc).1 ++
        (inline_go cands (d :: ds) (inline_step cands i lc).2).1).getLast? = some x
      rw [List.getLast?_append, ht]
      rfl

theorem ensure_return_last (l : List IRInstr) :
    (if l.getLast? = some IRInstr.Return then l
     else l ++ [IRInstr.LoadConstInt 0, IRInstr.Return]).getLast? =
      some IRInstr.Return := by
  split
  · assumption
  · rw [List.getLast?_append]
    rfl

theorem lower_function_last (name : String) (params : List String)
    (body : List Stmt) :
    (lower_function name params body).instructions.getLast? =
      some IRInstr.Return :=
  ensure_return_last _

theorem lower_mem (stmts : List Stmt) (f : IRFunction)
    (hf : f ∈ (lower stmts).functions) :
    ∃ n ps rt b e, Stmt.Function n ps rt b e ∈ stmts ∧
      f = lower_function n ps b := by
  unfold lower at hf
  rw [List.mem_filterMap] at hf
  obtain ⟨s, hs, hmatch⟩ := hf
  cases s with
  | Function n ps rt b e =>
    exact ⟨n, ps, rt, b, e, hs, (Option.some.inj hmatch).symm⟩
  | Import name => exact Option.noConfusion hmatch
  | Expression e => exact Option.noConfusion hmatch
  | Let name v => exact Option.noConfusion hmatch
  | Assign name v => exact Option.noConfusion hmatch
  | If c t e => exact Option.noConfusion hmatch
  | While c b => exact Option.noConfusion hmatch
  | Return e => exact Option.noConfusion hmatch
  | Panic e => exact Option.noConfusion hmatch

theorem optimize_exit_last (ir : List IRInstr) (x : IRInstr)
    (h : ir.getLast? = some x) (hx : isExit x = true) :
    ∃ y, (optimize ir).getLast? = some y ∧ isExit y = true := by
  unfold optimize const_fold
  exact dce_exit_last _ x (const_fold_go_last _ _ _ h hx) hx

/-- Claim C4 (amended): lowering makes every function end with `Return`,
and each optimizer pass keeps a terminator in final position, but dead-code
elimination truncates at the first `Return` or `Panic`; so every function
in the module `optimize_module` hands to the WAT emitter ends with `Return`
or with `Panic` (the latter exactly when a `Panic` precedes the first
`Return`, as for a body that is a single panic statement). -/
theorem optimize_module_last_return_or_panic (stmts : List Stmt)
    (f : IRFunction) (hf : f ∈ (optimize_module (lower stmts)).functions) :
    f.instructions.getLast? = some IRInstr.Return ∨
      f.instructions.getLast? = some IRInstr.Panic := by
  unfold optimize_module inline_small_functions at hf
  simp only [List.mem_map] at hf
  obtain ⟨g, ⟨f1, ⟨f0, hf0, rfl⟩, rfl⟩, rfl⟩ := hf
  obtain ⟨n, ps, rt, b, e, _, rfl⟩ := lower_mem stmts f0 hf0
  obtain ⟨y1, hy1, hy1x⟩ :=
    optimize_exit_last _ _ (lower_function_last n ps b) rfl
  have h2 := inline_go_last
    (collect_candidates
      ⟨List.map (fun f => { f with instructions := optimize f.instructions })
        (lower stmts).functions⟩)
    (optimize (lower_function n ps b).instructions)
    (lower_function n ps b).local_count y1 hy1 hy1x
  obtain ⟨y2, hy2, hy2x⟩ := optimize_exit_last _ _ h2 hy1x
  rcases (isExit_iff y2).mp hy2x with rfl | rfl
  · left; exact hy2
  · right; exact hy2

/-- Claim C4 witness: the amended theorem applied to the panic program and
its optimized function. -/
theorem optimize_module_last_return_or_panic_witness :
    (⟨"bad", 0, [.LoadConstString "nope", .Panic], 0⟩ : IRFunction).instructions.getLast?
        = some IRInstr.Return ∨
      (⟨"bad", 0, [.LoadConstString "nope", .Panic], 0⟩ : IRFunction).instructions.getLast?
        = some IRInstr.Panic :=
  optimize_module_last_return_or_panic panic_prog _ (by decide)

/-- Claim C4 counterexample: for the function whose body is the single
statement panic("nope"), the instruction list handed to the emitter after
`optimize_module` ends with `Panic`, not `Return` — the claim as stated is
false. -/
theorem panic_function_ends_with_panic :
    (optimize_module (lower panic_prog)).functions.map
        (fun f => f.instructions.getLast?) = [some IRInstr.Panic] ∧
    some IRInstr.Panic ≠ some IRInstr.Return :=
  ⟨by decide, by decide⟩

/-! ### Soundness of constant folding on the straightline fragment -/

theorem foldOp_eval (op : IRInstr) (x y z : Int) (h : foldOp op x y = some z)
    (s : List Int) : eval_step op (y :: x :: s) = some (z :: s) := by
  cases op <;> simp only [foldOp] at h <;>
    first
      | exact Option.noConfusion h
      | (simp only [eval_step]
         split at h <;>
           simp_all [eval_step])
      | simp_all [eval_step]

theorem const_fold_go_eval (fuel : Nat) :
    ∀ (l : List IRInstr) (s : List Int), l.length ≤ fuel →
      eval_straight (const_fold_go fuel l) s = eval_straight l s := by
  induction fuel with
  | zero => intro l s _; rfl
  | succ fuel ih =>
    intro l s hlen
    match l with
    | [] => rfl
    | [a] => rfl
    | [a, b] => rfl
    | a :: b :: c :: rest =>
      rw [const_fold_go]
      cases hf : foldTriple a b c with
      | none =>
        simp only [hf]
        simp only [eval_straight]
        cases hs : eval_step a s with
        | none => simp only [hs]
        | some s2 =>
          simp only [hs]
          exact ih (b :: c :: rest) s2 (by simp at hlen ⊢; omega)
      | some r =>
        simp only [hf]
        obtain ⟨x, y, z, rfl, rfl, rfl, hop⟩ := foldTriple_some _ _ _ _ hf
        rw [ih (IRInstr.LoadConstInt z :: rest) s (by simp at hlen ⊢; omega)]
        have e1 : eval_step (IRInstr.LoadConstInt z) s = some (z :: s) := rfl
        have e2 : eval_step (IRInstr.LoadConstInt x) s = some (x :: s) := rfl
        have e3 : eval_step (IRInstr.LoadConstInt y) (x :: s) = some (y :: x :: s) := rfl
        simp only [eval_straight, e1, e2, e3, foldOp_eval c x y z hop s]

/-! ### The panic-aware folder refines the total completion wherever it
returns a result -/

theorem foldOpRust_total (op : IRInstr) (a b : Int) :
    foldOpRust op a b = none ∨ foldOpRust op a b = some (foldOp op a b) := by
  cases op <;>
    first
      | (simp [foldOpRust, foldOp]
         done)
      | (by_cases hb : b = 0
         · simp [foldOpRust, foldOp, hb]
         · by_cases hov : a = -(2 ^ 63) ∧ b = -1 <;>
             simp [foldOpRust, foldOp, rust_i64div, rust_i64mod, hb, hov] <;>
             tauto)

theorem foldTripleRust_total (a b c : IRInstr) :
    foldTripleRust a b c = none ∨
      foldTripleRust a b c = some (foldTriple a b c) := by
  unfold foldTripleRust foldTriple
  split
  case _ x y => rcases foldOpRust_total c x y with h | h <;> simp [h]
  case _ => simp

/-- How the panic-aware folder treats a single three-instruction window. -/
theorem const_fold_rust_triple (a b : Int) (op : IRInstr) :
    const_fold_rust [.LoadConstInt a, .LoadConstInt b, op] =
      match foldOpRust op a b with
      | none => none
      | some (some v) => some [IRInstr.LoadConstInt v]
      | some none =>
        some [IRInstr.LoadConstInt a, IRInstr.LoadConstInt b, op] := by
  show (match foldTripleRust (IRInstr.LoadConstInt a)
      (IRInstr.LoadConstInt b) op with
    | none => (none : Option (List IRInstr))
    | some (some r) => const_fold_rust_go 2 [r]
    | some none =>
      (const_fold_rust_go 2 [IRInstr.LoadConstInt b, op]).map
        (IRInstr.LoadConstInt a :: ·)) = _
  have hT : foldTripleRust (IRInstr.LoadConstInt a) (IRInstr.LoadConstInt b)
      op = (foldOpRust op a b).map (Option.map IRInstr.LoadConstInt) := rfl
  rw [hT]
  cases h : foldOpRust op a b with
  | none => rfl
  | some o => cases o with
    | none => rfl
    | some v => rfl

theorem const_fold_rust_go_agrees (fuel : Nat) :
    ∀ (l r : List IRInstr), const_fold_rust_go fuel l = some r →
      const_fold_go fuel l = r := by
  induction fuel with
  | zero => intro l r h; exact Option.some.inj h
  | succ fuel ih =>
    intro l r h
    match l with
    | [] => exact Option.some.inj h
    | [a] => exact Option.some.inj h
    | [a, b] => exact Option.some.inj h
    | a :: b :: c :: rest =>
      rcases foldTripleRust_total a b c with ht | ht
      · rw [const_fold_rust_go, ht] at h
        exact Option.noConfusion h
      · cases hf : foldTriple a b c with
        | some r0 =>
          rw [const_fold_rust_go, ht, hf] at h
          have h2 : const_fold_rust_go fuel (r0 :: rest) = some r := h
          rw [const_fold_go, hf]
          exact ih _ _ h2
        | none =>
          rw [const_fold_rust_go, ht, hf] at h
          have h2 : (const_fold_rust_go fuel (b :: c :: rest)).map
            (a :: ·) = some r := h
          rw [const_fold_go, hf]
          cases hm : const_fold_rust_go fuel (b :: c :: rest) with
          | none => rw [hm] at h2; exact Option.noConfusion h2
          | some r2 =>
            rw [hm] at h2
            have h3 : a :: r2 = r := Option.some.inj h2
            rw [ih _ _ hm]
            exact h3

/-- Claim C9 counterexample: the window guards only b = 0, but at
a = i64::MIN, b = -1 Rust's division (and remainder) overflow aborts the
compiler in every build mode, so the triple is not replaced by any folded
constant — the fold produces no instruction list at all, refuting the
claim that every Div/Mod triple with b not 0 folds to a constant. -/
theorem const_fold_div_overflow_panics :
    const_fold_rust
      [.LoadConstInt (-(2 ^ 63)), .LoadConstInt (-1), .Div] = none ∧
    const_fold_rust
      [.LoadConstInt (-(2 ^ 63)), .LoadConstInt (-1), .Mod] = none :=
  ⟨by decide, by decide⟩

/-- Claim C9 (amended): constant folding follows the stated rules and is
sound, except at the unguarded overflow pair.  Whenever the fold completes
(no panic), it preserves straightline evaluation (spec P6); each adjacent
`LoadConstInt a; LoadConstInt b; OP` window folds to the single constant
the 64-bit ALU computes for OP, with wrapping Add/Sub/Mul and truncating
Div/Mod; comparisons fold to 1 or 0; `Div`/`Mod` with b = 0 are never
folded and left unchanged; and `Div`/`Mod` at a = i64::MIN, b = -1 panic
instead of folding. -/
theorem const_fold_rust_semantics :
    (∀ (l r : List IRInstr) (s : List Int), const_fold_rust l = some r →
      eval_straight r s = eval_straight l s) ∧
    (∀ a b : Int, const_fold_rust [.LoadConstInt a, .LoadConstInt b, .Add] =
      some [.LoadConstInt (wrap64 (a + b))]) ∧
    (∀ a b : Int, const_fold_rust [.LoadConstInt a, .LoadConstInt b, .Sub] =
      some [.LoadConstInt (wrap64 (a - b))]) ∧
    (∀ a b : Int, const_fold_rust [.LoadConstInt a, .LoadConstInt b, .Mul] =
      some [.LoadConstInt (wrap64 (a * b))]) ∧
    (∀ a b : Int, b ≠ 0 → ¬(a = -(2 ^ 63) ∧ b = -1) →
      const_fold_rust [.LoadConstInt a, .LoadConstInt b, .Div] =
        some [.LoadConstInt (wrap64 (Int.tdiv a b))]) ∧
    (∀ a b : Int, b ≠ 0 → ¬(a = -(2 ^ 63) ∧ b = -1) →
      const_fold_rust [.LoadConstInt a, .LoadConstInt b, .Mod] =
        some [.LoadConstInt (wrap64 (Int.tmod a b))]) ∧
    (∀ a : Int, const_fold_rust [.LoadConstInt a, .LoadConstInt 0, .Div] =
      some [.LoadConstInt a, .LoadConstInt 0, .Div]) ∧
    (∀ a : Int, const_fold_rust [.LoadConstInt a, .LoadConstInt 0, .Mod] =
      some [.LoadConstInt a, .LoadConstInt 0, .Mod]) ∧
    (const_fold_rust
      [.LoadConstInt (-(2 ^ 63)), .LoadConstInt (-1), .Div] = none) ∧
    (const_fold_rust
      [.LoadConstInt (-(2 ^ 63)), .LoadConstInt (-1), .Mod] = none) ∧
    (∀ a b : Int, const_fold_rust [.LoadConstInt a, .LoadConstInt b, .Eq] =
      some [.LoadConstInt (if a = b then 1 else 0)]) ∧
    (∀ a b : Int, const_fold_rust [.LoadConstInt a, .LoadConstInt b, .Ne] =
      some [.LoadConstInt (if a ≠ b then 1 else 0)]) ∧
    (∀ a b : Int, const_fold_rust [.LoadConstInt a, .LoadConstInt b, .Lt] =
      some [.LoadConstInt (if a < b then 1 else 0)]) ∧
    (∀ a b : Int, const_fold_rust [.LoadConstInt a, .LoadConstInt b, .Le] =
      some [.LoadConstInt (if a ≤ b then 1 else 0)]) ∧
    (∀ a b : Int, const_fold_rust [.LoadConstInt a, .LoadConstInt b, .Gt] =
      some [.LoadConstInt (if a > b then 1 else 0)]) ∧
    (∀ a b : Int, const_fold_rust [.LoadConstInt a, .LoadConstInt b, .Ge] =
      some [.LoadConstInt (if a ≥ b then 1 else 0)]) := by
  refine ⟨?_, fun a b => rfl, fun a b => rfl, fun a b => rfl, ?_, ?_,
    fun a => ?_, fun a => ?_, by decide, by decide,
    fun a b => rfl, fun a b => rfl, fun a b => rfl, fun a b => rfl,
    fun a b => rfl, fun a b => rfl⟩
  · intro l r s h
    rw [← const_fold_rust_go_agrees l.length l r h]
    exact const_fold_go_eval l.length l s (Nat.le_refl _)
  · intro a b hb hov
    rw [const_fold_rust_triple]
    have hdiv : foldOpRust IRInstr.Div a b =
        some (some (wrap64 (Int.tdiv a b))) := by
      show (if b ≠ 0 then (rust_i64div a b).map some else some none) = _
      rw [if_pos hb]
      show (rust_i64div a b).map some = _
      unfold rust_i64div
      rw [if_neg hov]
      rfl
    rw [hdiv]
  · intro a b hb hov
    rw [const_fold_rust_triple]
    have hmod : foldOpRust IRInstr.Mod a b =
        some (some (wrap64 (Int.tmod a b))) := by
      show (if b ≠ 0 then (rust_i64mod a b).map some else some none) = _
      rw [if_pos hb]
      show (rust_i64mod a b).map some = _
      unfold rust_i64mod
      rw [if_neg hov]
      rfl
    rw [hmod]
  · rfl
  · rfl

/-- Claim C9 witness: the division rule applied at 7 and 2. -/
theorem const_fold_rust_semantics_witness :
    const_fold_rust [.LoadConstInt 7, .LoadConstInt 2, .Div] =
      some [.LoadConstInt (wrap64 (Int.tdiv 7 2))] :=
  const_fold_rust_semantics.2.2.2.2.1 7 2 (by decide) (by decide)

/-! ### The import set is duplicate-free and collects exactly the
referenced names -/

theorem mem_insert_import (acc : List String) (n a : String) :
    a ∈ insert_import acc n ↔ a ∈ acc ∨ a = n := by
  unfold insert_import
  by_cases h : n ∈ acc
  · simp only [h, if_true]
    constructor
    · exact Or.inl
    · rintro (ha | rfl)
      · exact ha
      · exact h
  · simp [h]

theorem nodup_insert_import (acc : List String) (n : String)
    (h : acc.Nodup) : (insert_import acc n).Nodup := by
  unfold insert_import
  by_cases hm : n ∈ acc
  · simpa [hm]
  · simp [hm, List.nodup_append, h]

theorem mem_collect_instr : ∀ (l : List IRInstr) (acc : List String)
    (a : String),
    a ∈ collect_instr_imports acc l ↔
      a ∈ acc ∨ ∃ i ∈ l, import_name_of i = some a := by
  intro l
  induction l with
  | nil => intro acc a; simp [collect_instr_imports]
  | cons i rest ih =>
    intro acc a
    rw [collect_instr_imports]
    cases hni : import_name_of i with
    | none =>
      simp only [hni]
      rw [ih]
      constructor
      · rintro (ha | ⟨j, hj, hja⟩)
        · exact Or.inl ha
        · exact Or.inr ⟨j, List.mem_cons_of_mem _ hj, hja⟩
      · rintro (ha | ⟨j, hj, hja⟩)
        · exact Or.inl ha
        · rcases List.mem_cons.mp hj with rfl | hj2
          · rw [hni] at hja; exact Option.noConfusion hja
          · exact Or.inr ⟨j, hj2, hja⟩
    | some n =>
      simp only [hni]
      rw [ih, mem_insert_import]
      constructor
      · rintro ((ha | rfl) | ⟨j, hj, hja⟩)
        · exact Or.inl ha
        · exact Or.inr ⟨i, List.mem_cons_self _ _, hni⟩
        · exact Or.inr ⟨j, List.mem_cons_of_mem _ hj, hja⟩
      · rintro (ha | ⟨j, hj, hja⟩)
        · exact Or.inl (Or.inl ha)
        · rcases List.mem_cons.mp hj with rfl | hj2
          · rw [hni] at hja
            exact Or.inl (Or.inr (Option.some.inj hja).symm)
          · exact Or.inr ⟨j, hj2, hja⟩

theorem nodup_collect_instr : ∀ (l : List IRInstr) (acc : List String),
    acc.Nodup → (collect_instr_imports acc l).Nodup := by
  intro l
  induction l with
  | nil => intro acc h; simpa [collect_instr_imports]
  | cons i rest ih =>
    intro acc h
    rw [collect_instr_imports]
    cases hni : import_name_of i with
    | none => simp only [hni]; exact ih _ h
    | some n => simp only [hni]; exact ih _ (nodup_insert_import _ _ h)

theorem mem_collect_funcs : ∀ (fs : List IRFunction) (acc : List String)
    (a : String),
    a ∈ fs.foldl (fun acc f => collect_instr_imports acc f.instructions) acc ↔
      a ∈ acc ∨ ∃ f ∈ fs, ∃ i ∈ f.instructions, import_name_of i = some a := by
  intro fs
  induction fs with
  | nil => intro acc a; simp
  | cons f rest ih =>
    intro acc a
    rw [List.foldl_cons, ih, mem_collect_instr]
    constructor
    · rintro ((ha | ⟨i, hi, hia⟩) | ⟨g, hg, i, hi, hia⟩)
      · exact Or.inl ha
      · exact Or.inr ⟨f, List.mem_cons_self _ _, i, hi, hia⟩
      · exact Or.inr ⟨g, List.mem_cons_of_mem _ hg, i, hi, hia⟩
    · rintro (ha | ⟨g, hg, i, hi, hia⟩)
      · exact Or.inl (Or.inl ha)
      · rcases List.mem_cons.mp hg with rfl | hg2
        · exact Or.inl (Or.inr ⟨i, hi, hia⟩)
        · exact Or.inr ⟨g, hg2, i, hi, hia⟩

theorem nodup_collect_funcs : ∀ (fs : List IRFunction) (acc : List String),
    acc.Nodup →
    (fs.foldl (fun acc f => collect_instr_imports acc f.instructions)
      acc).Nodup := by
  intro fs
  induction fs with
  | nil => intro acc h; simpa
  | cons f rest ih =>
    intro acc h
    rw [List.foldl_cons]
    exact ih _ (nodup_collect_instr _ _ h)

/-- Claim C7 (amended): every external name referenced by a `CallStd`,
`CallAI`, or `CallWeb3` instruction, and the name "panic" when a `Panic`
instruction occurs, appears exactly once among the collected import names
(one import declaration is generated per collected name); names referenced
only by `CallFS` are not collected at all, since `collect_stdlib_imports`
has no arm for `CallFS`. -/
theorem collect_imports_name_exactly_once (m : IRModule) (name : String)
    (f : IRFunction) (i : IRInstr) (hf : f ∈ m.functions)
    (hi : i ∈ f.instructions) (hn : import_name_of i = some name) :
    (collect_stdlib_imports m).count name = 1 := by
  have hmem : name ∈ collect_stdlib_imports m := by
    unfold collect_stdlib_imports
    rw [mem_collect_funcs]
    exact Or.inr ⟨f, hf, i, hi, hn⟩
  have hnd : (collect_stdlib_imports m).Nodup :=
    nodup_collect_funcs _ _ List.nodup_nil
  exact List.count_eq_one_of_mem hnd hmem

/-- Claim C7 witness: the amended theorem applied to a module calling the
stdlib function print. -/
theorem collect_imports_name_exactly_once_witness :
    (collect_stdlib_imports std_module).count "print" = 1 :=
  collect_imports_name_exactly_once std_module "print"
    ⟨"main", 0, [.LoadConstString "hi", .CallStd "print", .Panic], 0⟩
    (.CallStd "print") (by decide) (by decide) (by decide)

/-- Claim C7 counterexample: in a module whose only external reference is
`CallFS "fs.read_file"`, that name appears zero times among the collected
imports — not exactly once as the claim states for `CallFS`. -/
theorem callfs_name_missing_from_imports :
    fs_module.functions.map (fun f => f.instructions) =
      [[IRInstr.CallFS "fs.read_file", IRInstr.Return]] ∧
    collect_stdlib_imports fs_module = [] ∧
    (collect_stdlib_imports fs_module).count "fs.read_file" = 0 ∧
    (0 : Nat) ≠ 1 :=
  ⟨by decide, by decide, by decide, by decide⟩

/-- Claim C5 (code_bug evaluation): in the optimized module with functions
f and g interning "a" and "b" respectively, the module-level allocator (the
one the data section is generated from) places "b" at offset 1, but
`generate_body` for g is handed a fresh per-function allocator in which "b"
sits at offset 0, so the emitted `i32.const` pointer for "b" differs from
the (offset, length) at which the data section places it. -/
theorem interning_inconsistent_across_functions :
    (optimize_module (lower two_string_prog)).functions =
      [⟨"f", 0, [.LoadConstString "a", .Panic], 0⟩,
       ⟨"g", 0, [.LoadConstString "b", .Panic], 0⟩] ∧
    alookup (module_allocator
      (optimize_module (lower two_string_prog))).strings "b" = some (1, 1) ∧
    emitted_string_const
      (func_allocator ⟨"g", 0, [.LoadConstString "b", .Panic], 0⟩) "b" =
      (0, 1) ∧
    ((0 : Nat), (1 : Nat)) ≠ ((1 : Nat), (1 : Nat)) :=
  ⟨by decide, by decide, by decide, by decide⟩

/-- Claim C6 (code_bug evaluation): the driver's flattening starts
`all_modules` with the main module and pushes imported modules after it, so
for a root importing math the flattened unit lists the root's statements
("main") before math's ("add"), not after them as the claim states. -/
theorem flatten_places_importer_first :
    (flatten_unit main_module_stmts [("math", math_module_stmts)]).map
      (fun l => l.map stmt_name) = some ["main", "add"] := by
  rfl

/-- Claim C8 (amended): after `optimize_module` on the add/main program,
main contains no `Call` and its local count is 2, but the inlined body
first stores the argument constants into the fresh local slots, and the
three-instruction folding window cannot see through the stores, so main is
the eight-instruction store/load sequence — not `LoadConstInt 5; Return`. -/
theorem inlined_main_shape :
    (optimize_module (lower add_main_prog)).functions =
      [⟨"add", 2, [.LoadLocal 0, .LoadLocal 1, .Add, .Return], 2⟩,
       ⟨"main", 0,
        [.LoadConstInt 2, .LoadConstInt 3, .StoreLocal 1, .StoreLocal 0,
         .LoadLocal 0, .LoadLocal 1, .Add, .Return], 2⟩] ∧
    ((optimize_module (lower add_main_prog)).functions.map
      (fun f => f.instructions.all (fun i =>
        match i with
        | IRInstr.Call _ _ => false
        | _ => true))) = [true, true] :=
  ⟨by decide, by decide⟩

/-- Claim C8 counterexample: main's optimized instruction list is not
`LoadConstInt 5; Return`. -/
theorem inlined_main_not_folded_to_five :
    ((optimize_module (lower add_main_prog)).functions.map
      (fun f => f.instructions)).get? 1 ≠
      some [IRInstr.LoadConstInt 5, IRInstr.Return] := by
  decide

/-- Claim C10: after checking fn f(p) whose body binds let x = "s", only
the parameter p is removed from the symbol table — x stays mapped to
String; consequently the later function g, whose body returns the bare
identifier x, gets inferred return type String instead of Unknown. -/
theorem typechecker_let_leaks_across_functions :
    alookup (check_stmt initTC
      (Stmt.Function "f" ["p"] Ty.Void
        [Stmt.Let "x" (Expr.String "s")] false)).symbols "x" =
      some Ty.String ∧
    alookup (check_stmt initTC
      (Stmt.Function "f" ["p"] Ty.Void
        [Stmt.Let "x" (Expr.String "s")] false)).symbols "p" = none ∧
    (alookup (check_program leak_prog).functions "g").map
      (fun sig => sig.return_type) = some Ty.String ∧
    Ty.String ≠ Ty.Unknown :=
  ⟨by decide, by decide, by decide, by decide⟩

end Astrixa
